import Mathlib

/-!
Verification development for the pg-xcopy repository: a job execution engine
that copies and materializes relational data between two PostgreSQL databases,
plus the test-suite database harness.

The repository's visible source consists of the package export surface
(`src/__init__.py`) and the test harness (`tests/__init__.py`).  The engine
modules (`pg_xmat.py`, `schemas.py`) are declared and imported but their code
is not in the tree, so the engine below is modelled from the specification
document; the export surface and the harness are embedded from the source.
-/

namespace PgXcopy

/-- A database row, as an opaque tuple of column values. -/
abbrev Row := List String

/-- A table: a column list plus the rows, in order. -/
structure Table where
  cols : List String
  rows : List Row
deriving DecidableEq, Repr

/-- A single database: association list from table name to table, first
binding wins on lookup. -/
abbrev DB := List (String × Table)

/-- Modelled from the spec: `Query` — a semantic wrapper over a parameterized
read statement; immutable once constructed (§3 DATA MODEL). -/
structure Query where
  sql : String
deriving DecidableEq, Repr

/-- Modelled from the spec: the closed tagged variant for a job's data source —
a table reference for a copy job, a `Query` for a materialize job (§3, §9). -/
inductive JobSource
  | table (tbl : String)
  | query (q : Query)
deriving DecidableEq, Repr

/-- Modelled from the spec: the `onConflict` policy of a job —
replace / append / fail if target exists (§3 DATA MODEL). -/
inductive OnConflict
  | replace
  | append
  | failIfExists
deriving DecidableEq, Repr

/-- Modelled from the spec: `Job` — one unit of work, with `name`,
`source` (the kind tag is carried by the tagged `JobSource` variant),
`target`, `dependsOn` and `onConflict` (§3 DATA MODEL). -/
structure Job where
  name : String
  source : JobSource
  target : String
  dependsOn : List String
  onConflict : OnConflict
deriving DecidableEq, Repr

/-- Modelled from the spec: `Jobs` — a collection of `Job` (§3 DATA MODEL). -/
abbrev Jobs := List Job

/-- Modelled from the spec: `Database` — a connection descriptor
(host/credentials/identifier), treated as an opaque validated value (§3, §6). -/
structure Database where
  url : String
deriving DecidableEq, Repr

/-- Modelled from the spec: the status of one `JobResult`
(succeeded / failed / skipped, §3 DATA MODEL). -/
inductive JobStatus
  | succeeded
  | failed
  | skipped
deriving DecidableEq, Repr

/-- Modelled from the spec: `JobResult` — outcome of one job: status, row
count transferred, error detail if failed (§3 DATA MODEL). -/
structure JobResult where
  name : String
  status : JobStatus
  rowCount : Nat
  error : Option String
deriving DecidableEq, Repr

/-- Modelled from the spec: the overall status of a batch —
all succeeded / partial / aborted (§3 DATA MODEL); the spec's "partial"
outcome is called `mixed` here. -/
inductive BatchStatus
  | allSucceeded
  | mixed
  | aborted
deriving DecidableEq, Repr

/-- Modelled from the spec: `BatchResult` — ordered sequence of `JobResult`,
one per job in execution order, plus an overall status (§3 DATA MODEL). -/
structure BatchResult where
  results : List JobResult
  overall : BatchStatus
deriving DecidableEq, Repr

/-- Modelled from the spec: `DependencyCycleError`, naming the participating
job names (§4.3 Dependency Resolver). -/
structure DependencyCycleError where
  jobNames : List String
deriving DecidableEq, Repr

/-- A generic streaming-transfer error (spec §7: `TransferError`). -/
structure TransferError where
  msg : String
deriving DecidableEq, Repr

/-- Modelled from the spec: the bulk-copy stream of a job's rows.  A fault
injected at stream position `k` (with `k` before the end of the row list)
aborts the stream with a `TransferError`; otherwise all rows arrive (§4.4). -/
def streamRows (rows : List Row) (faultAt : Option Nat) : Except TransferError (List Row) :=
  match faultAt with
  | none => Except.ok rows
  | some k =>
    if k < rows.length then Except.error ⟨"connection dropped mid-stream"⟩
    else Except.ok rows

/-- The semantics of evaluating a `Query` against a source database is an
external parameter of the engine (the spec treats SQL evaluation as the
database's job, §4.4). -/
def QueryEval := Query → DB → Option Table

/-- Modelled from the spec: fetch the source data of a job — full scan of the
source table for a copy job, query evaluation for a materialize job (§4.4). -/
def fetchSource (qeval : QueryEval) (src : DB) : JobSource → Option Table
  | JobSource.table t => src.lookup t
  | JobSource.query q => qeval q src

/-- Replace the binding of table `n` in `db` by `t` (drop-and-recreate). -/
def setTable (db : DB) (n : String) (t : Table) : DB :=
  db.filter (fun p => p.1 != n) ++ [(n, t)]

/-- A failed `JobResult` carries row count 0 and the error message (§4.4). -/
def failedResult (nm msg : String) : JobResult :=
  ⟨nm, JobStatus.failed, 0, some msg⟩

/-- A skipped job is recorded with status skipped and row count 0 (§4.5). -/
def skippedResult (nm : String) : JobResult :=
  ⟨nm, JobStatus.skipped, 0, none⟩

/-- Modelled from the spec: target handling per `onConflict` policy, computed
inside the per-job transaction — replace drops and recreates, append requires
matching column shapes, fail-if-exists checks existence first (§4.4). -/
def loadIntoTarget (tgt : DB) (j : Job) (t : Table) : Except TransferError DB :=
  match j.onConflict with
  | OnConflict.replace => Except.ok (setTable tgt j.target t)
  | OnConflict.append =>
    match tgt.lookup j.target with
    | none => Except.error ⟨"append target does not exist"⟩
    | some old =>
      if old.cols = t.cols then
        Except.ok (setTable tgt j.target ⟨old.cols, old.rows ++ t.rows⟩)
      else Except.error ⟨"SchemaMismatchError"⟩
  | OnConflict.failIfExists =>
    match tgt.lookup j.target with
    | some _ => Except.error ⟨"TargetExistsError"⟩
    | none => Except.ok (setTable tgt j.target t)

/-- Modelled from the spec: the Transfer Engine executes exactly one job end
to end.  The whole transfer (target DDL + data load) runs in one transaction
on the target: the new target state is committed only when every step
succeeds, and any error leaves the target exactly as it was (§4.4).  The
returned `JobResult` carries row count = rows committed (0 on failure). -/
def execJob (qeval : QueryEval) (src tgt : DB) (j : Job) (faultAt : Option Nat) :
    DB × JobResult :=
  match fetchSource qeval src j.source with
  | none => (tgt, failedResult j.name "source read failed")
  | some t =>
    match streamRows t.rows faultAt with
    | Except.error e => (tgt, failedResult j.name e.msg)
    | Except.ok rows =>
      match loadIntoTarget tgt j ⟨t.cols, rows⟩ with
      | Except.error e => (tgt, failedResult j.name e.msg)
      | Except.ok tgt2 => (tgt2, ⟨j.name, JobStatus.succeeded, rows.length, none⟩)

/-- Fault injection for a batch: for each job name, an optional stream
position at which its transfer fails. -/
def FaultSpec := String → Option Nat

/-- Modelled from the spec: the Job Orchestrator under the default fail-fast
policy — execute jobs in the resolved order; on the first failure record all
remaining jobs as skipped without executing them (§4.5).  Returns the final
target state, the per-job results in order, and the names of the jobs that
were actually executed. -/
def execJobsFF (qeval : QueryEval) (src : DB) (faults : FaultSpec) :
    DB → List Job → DB × List JobResult × List String
  | tgt, [] => (tgt, [], [])
  | tgt, j :: rest =>
    let step := execJob qeval src tgt j (faults j.name)
    match step.2.status with
    | JobStatus.failed =>
      (step.1, step.2 :: rest.map (fun k => skippedResult k.name), [j.name])
    | _ =>
      let out := execJobsFF qeval src faults step.1 rest
      (out.1, step.2 :: out.2.1, j.name :: out.2.2)

/-- Modelled from the spec: the overall batch status — aborted when a job
failed (fail-fast default), all-succeeded when every job succeeded, the
spec's "partial" otherwise (§3, §4.5). -/
def batchStatusOf (rs : List JobResult) : BatchStatus :=
  if rs.any (fun r => r.status == JobStatus.failed) then BatchStatus.aborted
  else if rs.all (fun r => r.status == JobStatus.succeeded) then BatchStatus.allSucceeded
  else BatchStatus.mixed

/-- Find the first job in the list all of whose dependencies are already in
`done`, returning it together with the rest of the list in original order
(the spec's stable tie-break by insertion index, §4.3). -/
def pickReady (done : List String) : List Job → Option (Job × List Job)
  | [] => none
  | j :: rest =>
    if j.dependsOn.all (fun d => done.contains d) then some (j, rest)
    else
      match pickReady done rest with
      | some (k, rest2) => some (k, j :: rest2)
      | none => none

/-- Modelled from the spec: the Kahn-style topological sort loop of the
Dependency Resolver.  `acc` is the order built so far; a job is selectable
once every name it depends on has been selected.  When no job is selectable
(or fuel runs out) the remaining job names are reported in a
`DependencyCycleError`; no partial order is returned (§4.3). -/
def kahn (qfuel : Nat) (acc : List Job) (remaining : List Job) :
    Except DependencyCycleError (List Job) :=
  match qfuel, remaining with
  | _, [] => Except.ok acc
  | 0, rem => Except.error ⟨rem.map Job.name⟩
  | Nat.succ fuel, rem =>
    match pickReady (acc.map Job.name) rem with
    | none => Except.error ⟨rem.map Job.name⟩
    | some (j, rest) => kahn fuel (acc ++ [j]) rest

/-- Modelled from the spec: the Dependency Resolver — topological sort over
the explicit dependency graph, stable by insertion index, failing with
`DependencyCycleError` when a cycle exists (§4.3). -/
def resolveOrder (jobs : Jobs) : Except DependencyCycleError (List Job) :=
  kahn jobs.length [] jobs

/-- Modelled from the spec: the outcome of `run_jobs` — the batch result (or
the fatal pre-execution cycle error), the final target database state, the
number of database connections acquired during the run, and the names of the
jobs actually executed (§4.5, §6, §7). -/
structure RunOutcome where
  result : Except DependencyCycleError BatchResult
  finalTarget : DB
  connectionsAcquired : Nat
  executed : List String
deriving Repr

/-- Modelled from the spec: `run_jobs(jobsBatch, source, target) ->
BatchResult` — the Orchestrator asks the Resolver for an order first; a cycle
aborts the batch before any connection is acquired; otherwise the source and
target connections are acquired and the jobs run under the fail-fast policy
(§2 control flow, §4.5, §6). -/
def run_jobs (qeval : QueryEval) (jobs : Jobs) (src tgt : DB) (faults : FaultSpec) :
    RunOutcome :=
  match resolveOrder jobs with
  | Except.error e => ⟨Except.error e, tgt, 0, []⟩
  | Except.ok order =>
    let out := execJobsFF qeval src faults tgt order
    ⟨Except.ok ⟨out.2.1, batchStatusOf out.2.1⟩, out.1, 2, out.2.2⟩

/-- Modelled from the spec: `run_job(job, source, target) -> JobResult` — the
single-job entry point drives the Transfer Engine directly (§6). -/
def run_job (qeval : QueryEval) (j : Job) (src tgt : DB) (faultAt : Option Nat) :
    DB × JobResult :=
  execJob qeval src tgt j faultAt

/-- A query evaluator that resolves nothing; copy jobs never consult it. -/
def noQueries : QueryEval := fun _ _ => none

/-- The fault-free execution environment: no stream faults anywhere. -/
def noFaults : FaultSpec := fun _ => none

/-- C1: For a batch containing a single copy job (source table `orders`,
target `orders_copy`, onConflict=replace) run against an empty target
database, `run_jobs` returns a `BatchResult` containing exactly one
`JobResult` with status succeeded and rowCount equal to the source table's
row count, and afterwards the target table `orders_copy` contains exactly the
same rows and column values as the source table `orders`. -/
theorem run_jobs_single_copy_replace (cols : List String) (rows : List Row) :
    (run_jobs noQueries [⟨"t1", JobSource.table "orders", "orders_copy", [], OnConflict.replace⟩]
      [("orders", ⟨cols, rows⟩)] [] noFaults).result =
      Except.ok ⟨[⟨"t1", JobStatus.succeeded, rows.length, none⟩], BatchStatus.allSucceeded⟩ ∧
    (run_jobs noQueries [⟨"t1", JobSource.table "orders", "orders_copy", [], OnConflict.replace⟩]
      [("orders", ⟨cols, rows⟩)] [] noFaults).finalTarget.lookup "orders_copy" =
      some ⟨cols, rows⟩ :=
  ⟨rfl, rfl⟩

/-- C2: For every job whose transfer fails with any error (source read
failure, mid-stream fault, schema mismatch, or target-exists conflict), the
per-job transaction on the target connection rolls back, so the target
database state after the failed job is exactly the state before the job
started — no partial rows are ever visible. -/
theorem execJob_failed_rollback (qeval : QueryEval) (src tgt : DB) (j : Job)
    (fault : Option Nat)
    (h : (execJob qeval src tgt j fault).2.status = JobStatus.failed) :
    (execJob qeval src tgt j fault).1 = tgt := by
  unfold execJob at h ⊢
  cases hf : fetchSource qeval src j.source with
  | none => simp [hf]
  | some t =>
    simp only [hf] at h ⊢
    cases hs : streamRows t.rows fault with
    | error e => simp only [hs]
    | ok rows =>
      simp only [hs] at h ⊢
      cases hl : loadIntoTarget tgt j ⟨t.cols, rows⟩ with
      | error e => simp only [hl]
      | ok tgt2 =>
        simp only [hl] at h
        simp at h

/-- C2 witness: a copy job whose stream faults at position 0 fails and leaves
the concrete non-empty target exactly as it was. -/
theorem execJob_failed_rollback_witness :
    (execJob noQueries [("orders", ⟨["id"], [["1"], ["2"]]⟩)]
      [("keep", ⟨["k"], [["x"]]⟩)]
      ⟨"t1", JobSource.table "orders", "orders_copy", [], OnConflict.replace⟩
      (some 0)).2.status = JobStatus.failed ∧
    (execJob noQueries [("orders", ⟨["id"], [["1"], ["2"]]⟩)]
      [("keep", ⟨["k"], [["x"]]⟩)]
      ⟨"t1", JobSource.table "orders", "orders_copy", [], OnConflict.replace⟩
      (some 0)).1 = [("keep", ⟨["k"], [["x"]]⟩)] :=
  ⟨by decide, execJob_failed_rollback noQueries
    [("orders", ⟨["id"], [["1"], ["2"]]⟩)] [("keep", ⟨["k"], [["x"]]⟩)]
    ⟨"t1", JobSource.table "orders", "orders_copy", [], OnConflict.replace⟩
    (some 0) (by decide)⟩

/-- The dependency-order property, walking the order left to right with the
list of already-selected job names: every job's dependencies are among the
names seen strictly before it. -/
def depsEarlierAux : List String → List Job → Prop
  | _, [] => True
  | seen, j :: rest =>
    (∀ d ∈ j.dependsOn, d ∈ seen) ∧ depsEarlierAux (seen ++ [j.name]) rest

/-- An execution order is topologically valid when every job appears strictly
after all jobs named in its `dependsOn` set. -/
def depsEarlier (order : List Job) : Prop := depsEarlierAux [] order

/-- Modelled from the spec: a valid `Jobs` batch — job names unique, and no
job depends on a name absent from the collection (§3 DATA MODEL). -/
def ValidBatch (jobs : Jobs) : Prop :=
  (jobs.map Job.name).Nodup ∧ ∀ j ∈ jobs, ∀ d ∈ j.dependsOn, d ∈ jobs.map Job.name

/-- A nonempty collection of jobs in which every job depends on some job of
the collection: the witness shape of a dependency cycle (every directed cycle
is such a collection, and by finiteness such a collection contains a cycle). -/
def CyclicCore (s : List Job) : Prop :=
  s ≠ [] ∧ ∀ j ∈ s, ∃ k ∈ s, k.name ∈ j.dependsOn

/-- A batch's explicit dependency graph is acyclic when no sub-collection of
the batch is a cyclic core. -/
def Acyclic (jobs : Jobs) : Prop := ∀ s ∈ jobs.sublists, ¬ CyclicCore s

instance (jobs : Jobs) : Decidable (ValidBatch jobs) := by
  unfold ValidBatch; infer_instance

instance (s : List Job) : Decidable (CyclicCore s) := by
  unfold CyclicCore; infer_instance

instance (jobs : Jobs) : Decidable (Acyclic jobs) := by
  unfold Acyclic; infer_instance

/-- When `pickReady` finds nothing, every job in the list has a dependency
outside `done`. -/
theorem pickReady_none_blocked (done : List String) (l : List Job)
    (h : pickReady done l = none) :
    ∀ j ∈ l, ∃ d ∈ j.dependsOn, d ∉ done := by
  induction l with
  | nil => intro j hj; cases hj
  | cons a as ih =>
    unfold pickReady at h
    by_cases ha : (a.dependsOn.all fun d => done.contains d) = true
    · rw [if_pos ha] at h; cases h
    · rw [if_neg ha] at h
      cases hrec : pickReady done as with
      | some p =>
        obtain ⟨k, rest2⟩ := p
        rw [hrec] at h
        simp at h
      | none =>
        rw [hrec] at h
        intro j hj
        cases List.mem_cons.mp hj with
        | inl hja =>
          subst hja
          simpa [List.all_eq_false] using ha
        | inr hjas => exact ih hrec j hjas

/-- When `pickReady` selects a job, that job's dependencies are all in
`done`, and the selection splits the list into the job and the rest, the
rest keeping the original relative order. -/
theorem pickReady_some_spec (done : List String) :
    ∀ (l rest : List Job) (j : Job), pickReady done l = some (j, rest) →
      (∀ d ∈ j.dependsOn, d ∈ done) ∧ l.Perm (j :: rest) ∧ rest.Sublist l := by
  intro l
  induction l with
  | nil => intro rest j h; cases h
  | cons a as ih =>
    intro rest j h
    unfold pickReady at h
    by_cases ha : (a.dependsOn.all fun d => done.contains d) = true
    · rw [if_pos ha] at h
      injection h with h1
      injection h1 with h2 h3
      subst h2; subst h3
      refine ⟨by simpa using ha, List.Perm.refl _, List.sublist_cons_self a as⟩
    · rw [if_neg ha] at h
      cases hrec : pickReady done as with
      | none => rw [hrec] at h; cases h
      | some p =>
        obtain ⟨k, rest2⟩ := p
        rw [hrec] at h
        injection h with h1
        injection h1 with h2 h3
        subst h2; subst h3
        obtain ⟨hall, hperm, hsub⟩ := ih rest2 k hrec
        exact ⟨hall, (hperm.cons a).trans (List.Perm.swap k a rest2),
          List.Sublist.cons₂ a hsub⟩

/-- Unfolding equation: an empty remaining list yields the accumulated
order, whatever the fuel. -/
theorem kahn_nil (fuel : Nat) (acc : List Job) : kahn fuel acc [] = Except.ok acc := by
  cases fuel <;> rfl

/-- Unfolding equation: exhausted fuel with jobs remaining yields the cycle
error naming them. -/
theorem kahn_zero_cons (acc : List Job) (r : Job) (rs : List Job) :
    kahn 0 acc (r :: rs) = Except.error ⟨(r :: rs).map Job.name⟩ := rfl

/-- Unfolding equation: no selectable job yields the cycle error naming the
remaining jobs. -/
theorem kahn_succ_none (f : Nat) (acc : List Job) (r : Job) (rs : List Job)
    (h : pickReady (acc.map Job.name) (r :: rs) = none) :
    kahn (f + 1) acc (r :: rs) = Except.error ⟨(r :: rs).map Job.name⟩ := by
  unfold kahn; rw [h]

/-- Unfolding equation: a selected job is appended to the order and removed
from the remaining list. -/
theorem kahn_succ_some (f : Nat) (acc : List Job) (r : Job) (rs rest : List Job) (j : Job)
    (h : pickReady (acc.map Job.name) (r :: rs) = some (j, rest)) :
    kahn (f + 1) acc (r :: rs) = kahn f (acc ++ [j]) rest := by
  conv_lhs => unfold kahn
  rw [h]

/-- A successful Kahn run returns a permutation of the input jobs in which,
past the accumulated prefix, every job's dependencies were already selected
when it was. -/
theorem kahn_ok_spec : ∀ (fuel : Nat) (acc remaining order : List Job),
    kahn fuel acc remaining = Except.ok order →
    (acc ++ remaining).Perm order ∧
    ∃ tail, order = acc ++ tail ∧ depsEarlierAux (acc.map Job.name) tail := by
  intro fuel
  induction fuel with
  | zero =>
    intro acc remaining order h
    cases remaining with
    | nil =>
      rw [kahn_nil] at h
      injection h with h1
      subst h1
      exact ⟨by simp, [], by simp, trivial⟩
    | cons r rs => rw [kahn_zero_cons] at h; cases h
  | succ f ih =>
    intro acc remaining order h
    cases remaining with
    | nil =>
      rw [kahn_nil] at h
      injection h with h1
      subst h1
      exact ⟨by simp, [], by simp, trivial⟩
    | cons r rs =>
      cases hp : pickReady (acc.map Job.name) (r :: rs) with
      | none => rw [kahn_succ_none f acc r rs hp] at h; cases h
      | some p =>
        obtain ⟨j, rest⟩ := p
        rw [kahn_succ_some f acc r rs rest j hp] at h
        obtain ⟨hall, hperm, _⟩ := pickReady_some_spec _ _ _ _ hp
        obtain ⟨ihperm, tail2, htail2, hde⟩ := ih (acc ++ [j]) rest order h
        constructor
        · have h1 : (acc ++ (r :: rs)).Perm (acc ++ (j :: rest)) :=
            List.Perm.append_left acc hperm
          rw [List.append_cons acc j rest] at h1
          exact h1.trans ihperm
        · refine ⟨j :: tail2, ?_, ?_⟩
          · rw [List.append_cons acc j tail2]
            exact htail2
          · simp only [depsEarlierAux]
            refine ⟨hall, ?_⟩
            simpa [List.map_append] using hde

/-- On a valid acyclic batch the Kahn loop always completes, given fuel at
least the number of remaining jobs and the invariant that the accumulated
order and the remaining jobs partition the batch. -/
theorem kahn_complete (jobs : Jobs) (hv : ValidBatch jobs) (hac : Acyclic jobs) :
    ∀ (fuel : Nat) (acc remaining : List Job),
      remaining.length ≤ fuel →
      (acc ++ remaining).Perm jobs →
      remaining.Sublist jobs →
      ∃ order, kahn fuel acc remaining = Except.ok order := by
  intro fuel
  induction fuel with
  | zero =>
    intro acc remaining hlen _ _
    cases remaining with
    | nil => exact ⟨acc, kahn_nil 0 acc⟩
    | cons r rs => simp at hlen
  | succ f ih =>
    intro acc remaining hlen hperm hsub
    cases remaining with
    | nil => exact ⟨acc, kahn_nil _ acc⟩
    | cons r rs =>
      cases hp : pickReady (acc.map Job.name) (r :: rs) with
      | none =>
        exfalso
        apply hac (r :: rs) (List.mem_sublists.mpr hsub)
        refine ⟨by simp, ?_⟩
        intro j hj
        obtain ⟨d, hd, hdn⟩ := pickReady_none_blocked _ _ hp j hj
        have hjmem : j ∈ jobs := hsub.subset hj
        have hdjobs : d ∈ jobs.map Job.name := hv.2 j hjmem d hd
        obtain ⟨k, hk, hkd⟩ := List.mem_map.mp hdjobs
        have hk2 : k ∈ acc ++ (r :: rs) := hperm.symm.subset hk
        cases List.mem_append.mp hk2 with
        | inl hacc =>
          exfalso
          apply hdn
          rw [← hkd]
          exact List.mem_map_of_mem Job.name hacc
        | inr hrem =>
          refine ⟨k, hrem, ?_⟩
          rw [hkd]
          exact hd
      | some p =>
        obtain ⟨j, rest⟩ := p
        obtain ⟨hall, hpm, hsb⟩ := pickReady_some_spec _ _ _ _ hp
        have hlen2 : rest.length ≤ f := by
          have hl := hpm.length_eq
          simp at hl hlen
          omega
        have hperm2 : ((acc ++ [j]) ++ rest).Perm jobs := by
          rw [← List.append_cons acc j rest]
          exact (List.Perm.append_left acc hpm.symm).trans hperm
        have hsub2 : rest.Sublist jobs := hsb.trans hsub
        obtain ⟨order, ho⟩ := ih (acc ++ [j]) rest hlen2 hperm2 hsub2
        exact ⟨order, by rw [kahn_succ_some f acc r rs rest j hp]; exact ho⟩

/-- When a cyclic core exists among the remaining jobs and none of its names
has been selected, the Kahn loop can never select a core member, so it ends
in a `DependencyCycleError` naming every core member. -/
theorem kahn_cyclic_stuck (jobs : Jobs)
    (hinj : ∀ a ∈ jobs, ∀ b ∈ jobs, a.name = b.name → a = b)
    (c : List Job) (hcne : c ≠ [])
    (hcy : ∀ j ∈ c, ∃ k ∈ c, k.name ∈ j.dependsOn) :
    ∀ (fuel : Nat) (acc remaining : List Job),
      (∀ x ∈ remaining, x ∈ jobs) →
      (∀ j ∈ c, j ∈ remaining) →
      (∀ j ∈ c, j.name ∉ acc.map Job.name) →
      ∃ e, kahn fuel acc remaining = Except.error e ∧ ∀ j ∈ c, j.name ∈ e.jobNames := by
  intro fuel
  induction fuel with
  | zero =>
    intro acc remaining _ hcrem _
    cases remaining with
    | nil =>
      exfalso
      cases c with
      | nil => exact hcne rfl
      | cons a as => exact absurd (hcrem a (by simp)) (by simp)
    | cons r rs =>
      refine ⟨⟨(r :: rs).map Job.name⟩, kahn_zero_cons acc r rs, ?_⟩
      intro j hj
      exact List.mem_map_of_mem Job.name (hcrem j hj)
  | succ f ih =>
    intro acc remaining hrem hcrem hcacc
    cases remaining with
    | nil =>
      exfalso
      cases c with
      | nil => exact hcne rfl
      | cons a as => exact absurd (hcrem a (by simp)) (by simp)
    | cons r rs =>
      cases hp : pickReady (acc.map Job.name) (r :: rs) with
      | none =>
        refine ⟨⟨(r :: rs).map Job.name⟩, kahn_succ_none f acc r rs hp, ?_⟩
        intro j hj
        exact List.mem_map_of_mem Job.name (hcrem j hj)
      | some p =>
        obtain ⟨j, rest⟩ := p
        rw [kahn_succ_some f acc r rs rest j hp]
        obtain ⟨hall, hpm, hsb⟩ := pickReady_some_spec _ _ _ _ hp
        have hjjobs : j ∈ jobs := hrem j (hpm.symm.subset (List.mem_cons_self j rest))
        have hjnc : j ∉ c := by
          intro hjc
          obtain ⟨k, hk, hkd⟩ := hcy j hjc
          exact hcacc k hk (hall _ hkd)
        have hrem2 : ∀ x ∈ rest, x ∈ jobs := fun x hx => hrem x (hsb.subset hx)
        have hcrem2 : ∀ s ∈ c, s ∈ rest := by
          intro s hs
          have hsr : s ∈ (j :: rest) := hpm.subset (hcrem s hs)
          cases List.mem_cons.mp hsr with
          | inl h1 => exact absurd (h1 ▸ hs) hjnc
          | inr h1 => exact h1
        have hcacc2 : ∀ s ∈ c, s.name ∉ (acc ++ [j]).map Job.name := by
          intro s hs hmem
          rw [List.map_append] at hmem
          cases List.mem_append.mp hmem with
          | inl h1 => exact hcacc s hs h1
          | inr h1 =>
            have hsn : s.name = j.name := by simpa using h1
            have hsj : s = j := hinj s (hrem s (hcrem s hs)) j hjjobs hsn
            exact hjnc (hsj ▸ hs)
        exact ih (acc ++ [j]) rest hrem2 hcrem2 hcacc2

/-- C3: For every valid `Jobs` batch whose explicit dependency graph is
acyclic, the Dependency Resolver returns a linear execution order — a
permutation of the batch — in which every job appears strictly after all
jobs named in its `dependsOn` set. -/
theorem resolveOrder_topological (jobs : Jobs) (hv : ValidBatch jobs) (hac : Acyclic jobs) :
    ∃ order, resolveOrder jobs = Except.ok order ∧ order.Perm jobs ∧ depsEarlier order := by
  obtain ⟨order, ho⟩ := kahn_complete jobs hv hac jobs.length [] jobs
    (le_refl _) (by simp) (List.Sublist.refl _)
  obtain ⟨hperm, tail, htail, hde⟩ := kahn_ok_spec jobs.length [] jobs order ho
  have htail2 : order = tail := by simpa using htail
  refine ⟨order, ho, ?_, ?_⟩
  · exact (show jobs.Perm order by simpa using hperm).symm
  · unfold depsEarlier
    rw [htail2]
    simpa using hde

/-- C3 witness: a two-job batch where "B" depends on "A" resolves to a
topologically valid order. -/
theorem resolveOrder_topological_witness :
    ∃ order, resolveOrder [⟨"A", JobSource.table "a", "a2", [], OnConflict.replace⟩,
        ⟨"B", JobSource.table "b", "b2", ["A"], OnConflict.replace⟩] = Except.ok order ∧
      order.Perm [⟨"A", JobSource.table "a", "a2", [], OnConflict.replace⟩,
        ⟨"B", JobSource.table "b", "b2", ["A"], OnConflict.replace⟩] ∧ depsEarlier order :=
  resolveOrder_topological _ (by decide) (by decide)

/-- C4: For every valid `Jobs` batch whose explicit dependency graph contains
a cycle (a nonempty sub-collection in which every job depends on another job
of the sub-collection), resolution fails with a `DependencyCycleError` naming
the participating jobs, no partial order is returned, and `run_jobs` aborts
with that error having acquired zero database connections and executed no
job. -/
theorem run_jobs_cycle_aborts_before_connect (jobs : Jobs) (c : List Job)
    (hv : ValidBatch jobs) (hcne : c ≠ [])
    (hcmem : ∀ j ∈ c, j ∈ jobs)
    (hcy : ∀ j ∈ c, ∃ k ∈ c, k.name ∈ j.dependsOn)
    (qeval : QueryEval) (src tgt : DB) (faults : FaultSpec) :
    ∃ e, resolveOrder jobs = Except.error e ∧ (∀ j ∈ c, j.name ∈ e.jobNames) ∧
      run_jobs qeval jobs src tgt faults = ⟨Except.error e, tgt, 0, []⟩ := by
  obtain ⟨e, he, hnames⟩ := kahn_cyclic_stuck jobs
    (fun a ha b hb hab => List.inj_on_of_nodup_map hv.1 ha hb hab)
    c hcne hcy jobs.length [] jobs (fun x hx => hx) hcmem
    (by intro j hj hmem; simp at hmem)
  have hres : resolveOrder jobs = Except.error e := he
  refine ⟨e, hres, hnames, ?_⟩
  unfold run_jobs
  rw [hres]

/-- C4 witness: the two-job batch where "A" and "B" depend on each other
fails with a cycle error naming both, with zero connections acquired. -/
theorem run_jobs_cycle_witness :
    ∃ e, resolveOrder [⟨"A", JobSource.table "a", "a2", ["B"], OnConflict.replace⟩,
        ⟨"B", JobSource.table "b", "b2", ["A"], OnConflict.replace⟩] = Except.error e ∧
      (∀ j ∈ [⟨"A", JobSource.table "a", "a2", ["B"], OnConflict.replace⟩,
        ⟨"B", JobSource.table "b", "b2", ["A"], OnConflict.replace⟩], Job.name j ∈ e.jobNames) ∧
      run_jobs noQueries [⟨"A", JobSource.table "a", "a2", ["B"], OnConflict.replace⟩,
        ⟨"B", JobSource.table "b", "b2", ["A"], OnConflict.replace⟩] [] [] noFaults =
        ⟨Except.error e, [], 0, []⟩ :=
  run_jobs_cycle_aborts_before_connect _ _ (by decide) (by decide) (by decide) (by decide)
    noQueries [] [] noFaults

/-- The Transfer Engine labels its `JobResult` with the job's name on every
path. -/
theorem execJob_name (qeval : QueryEval) (src tgt : DB) (j : Job) (fault : Option Nat) :
    (execJob qeval src tgt j fault).2.name = j.name := by
  unfold execJob
  cases hf : fetchSource qeval src j.source with
  | none => rfl
  | some t =>
    cases hs : streamRows t.rows fault with
    | error e => simp [hs, failedResult]
    | ok rows =>
      cases hl : loadIntoTarget tgt j ⟨t.cols, rows⟩ with
      | error e => simp [hs, hl, failedResult]
      | ok tgt2 => simp [hs, hl]

/-- Unfolding equation: the orchestrator on an empty order. -/
theorem execJobsFF_nil (qeval : QueryEval) (src : DB) (faults : FaultSpec) (tgt : DB) :
    execJobsFF qeval src faults tgt [] = (tgt, [], []) := rfl

/-- Unfolding equation: a failed first job rolls the batch into skip mode. -/
theorem execJobsFF_cons_failed (qeval : QueryEval) (src : DB) (faults : FaultSpec)
    (tgt : DB) (j : Job) (rest : List Job)
    (h : (execJob qeval src tgt j (faults j.name)).2.status = JobStatus.failed) :
    execJobsFF qeval src faults tgt (j :: rest) =
      ((execJob qeval src tgt j (faults j.name)).1,
       (execJob qeval src tgt j (faults j.name)).2 ::
         rest.map (fun k => skippedResult k.name),
       [j.name]) := by
  simp only [execJobsFF]
  rw [h]

/-- Unfolding equation: a non-failed first job is followed by the rest. -/
theorem execJobsFF_cons_ok (qeval : QueryEval) (src : DB) (faults : FaultSpec)
    (tgt : DB) (j : Job) (rest : List Job)
    (h : (execJob qeval src tgt j (faults j.name)).2.status ≠ JobStatus.failed) :
    execJobsFF qeval src faults tgt (j :: rest) =
      ((execJobsFF qeval src faults (execJob qeval src tgt j (faults j.name)).1 rest).1,
       (execJob qeval src tgt j (faults j.name)).2 ::
         (execJobsFF qeval src faults (execJob qeval src tgt j (faults j.name)).1 rest).2.1,
       j.name ::
         (execJobsFF qeval src faults (execJob qeval src tgt j (faults j.name)).1 rest).2.2) := by
  cases hst : (execJob qeval src tgt j (faults j.name)).2.status with
  | failed => exact absurd hst h
  | succeeded => simp only [execJobsFF]
  | skipped => simp only [execJobsFF]

/-- A batch with a failed job is aborted under the fail-fast policy. -/
theorem batchStatusOf_aborted (rs : List JobResult)
    (h : ∃ r ∈ rs, r.status = JobStatus.failed) :
    batchStatusOf rs = BatchStatus.aborted := by
  unfold batchStatusOf
  rw [if_pos]
  rw [List.any_eq_true]
  obtain ⟨r, hr, hs⟩ := h
  exact ⟨r, hr, by simp [hs]⟩

/-- The orchestrator's results carry the order's job names positionally, and
when some job failed the result list splits into executed results, the first
failed result, and then only skipped results, with the executed-name list
being exactly the names up to and including the failure. -/
theorem execJobsFF_spec (qeval : QueryEval) (src : DB) (faults : FaultSpec) :
    ∀ (order : List Job) (tgt : DB),
      ((execJobsFF qeval src faults tgt order).2.1.map JobResult.name =
        order.map Job.name) ∧
      ((∃ r ∈ (execJobsFF qeval src faults tgt order).2.1,
          r.status = JobStatus.failed) →
        ∃ pre r post,
          (execJobsFF qeval src faults tgt order).2.1 = pre ++ r :: post ∧
          r.status = JobStatus.failed ∧
          (∀ x ∈ post, x.status = JobStatus.skipped) ∧
          (execJobsFF qeval src faults tgt order).2.2 =
            (pre ++ [r]).map JobResult.name) := by
  intro order
  induction order with
  | nil =>
    intro tgt
    rw [execJobsFF_nil]
    refine ⟨rfl, ?_⟩
    rintro ⟨r, hr, _⟩
    cases hr
  | cons j rest ih =>
    intro tgt
    by_cases hst : (execJob qeval src tgt j (faults j.name)).2.status = JobStatus.failed
    · rw [execJobsFF_cons_failed qeval src faults tgt j rest hst]
      constructor
      · simp [execJob_name, skippedResult, List.map_map, Function.comp]
      · intro _
        refine ⟨[], (execJob qeval src tgt j (faults j.name)).2,
          rest.map (fun k => skippedResult k.name), ?_, hst, ?_, ?_⟩
        · rfl
        · intro x hx
          obtain ⟨k, _, hk⟩ := List.mem_map.mp hx
          rw [← hk]
          rfl
        · simp [execJob_name]
    · rw [execJobsFF_cons_ok qeval src faults tgt j rest hst]
      obtain ⟨ihname, ihsplit⟩ := ih (execJob qeval src tgt j (faults j.name)).1
      constructor
      · simp only [List.map_cons, execJob_name, ihname]
      · rintro ⟨r, hr, hrs⟩
        cases List.mem_cons.mp hr with
        | inl h1 => exact absurd (h1 ▸ hrs) hst
        | inr h1 =>
          obtain ⟨pre, r2, post, hsplit, hfail, hpost, hex⟩ := ihsplit ⟨r, h1, hrs⟩
          refine ⟨(execJob qeval src tgt j (faults j.name)).2 :: pre, r2, post, ?_,
            hfail, hpost, ?_⟩
          · rw [hsplit]
            rfl
          · rw [hex]
            simp [execJob_name]

/-- C5: Under the default fail-fast failure policy, when any job in a batch
fails, the batch's overall status is aborted, and every job after the failed
one in the resolved order is recorded in the `BatchResult` with status
skipped and is never executed (its name is not among the executed job
names). -/
theorem run_jobs_failfast_skips_after_failure (qeval : QueryEval) (jobs : Jobs)
    (src tgt : DB) (faults : FaultSpec) (order : List Job)
    (hres : resolveOrder jobs = Except.ok order)
    (hnd : (order.map Job.name).Nodup)
    (hfail : ∃ r ∈ (execJobsFF qeval src faults tgt order).2.1,
      r.status = JobStatus.failed) :
    ∃ pre r post,
      (execJobsFF qeval src faults tgt order).2.1 = pre ++ r :: post ∧
      r.status = JobStatus.failed ∧
      run_jobs qeval jobs src tgt faults =
        ⟨Except.ok ⟨pre ++ r :: post, BatchStatus.aborted⟩,
         (execJobsFF qeval src faults tgt order).1, 2,
         (pre ++ [r]).map JobResult.name⟩ ∧
      (pre ++ r :: post).map JobResult.name = order.map Job.name ∧
      (∀ x ∈ post, x.status = JobStatus.skipped) ∧
      (∀ x ∈ post, x.name ∉ (pre ++ [r]).map JobResult.name) := by
  obtain ⟨hname, hsplit⟩ := execJobsFF_spec qeval src faults order tgt
  obtain ⟨pre, r, post, hs, hf, hpost, hex⟩ := hsplit hfail
  have hname2 : (pre ++ r :: post).map JobResult.name = order.map Job.name := by
    rw [← hname, hs]
  refine ⟨pre, r, post, hs, hf, ?_, hname2, hpost, ?_⟩
  · unfold run_jobs
    rw [hres]
    show (⟨Except.ok ⟨(execJobsFF qeval src faults tgt order).2.1,
        batchStatusOf (execJobsFF qeval src faults tgt order).2.1⟩,
      (execJobsFF qeval src faults tgt order).1, 2,
      (execJobsFF qeval src faults tgt order).2.2⟩ : RunOutcome) =
      ⟨Except.ok ⟨pre ++ r :: post, BatchStatus.aborted⟩,
       (execJobsFF qeval src faults tgt order).1, 2,
       (pre ++ [r]).map JobResult.name⟩
    rw [hs, hex]
    rw [batchStatusOf_aborted (pre ++ r :: post) ⟨r, by simp, hf⟩]
  · intro x hx hmem
    have h1 : order.map Job.name =
        (pre ++ [r]).map JobResult.name ++ post.map JobResult.name := by
      rw [← hname2, List.append_cons pre r post, List.map_append]
    rw [h1] at hnd
    obtain ⟨_, _, hdisj⟩ := List.nodup_append.mp hnd
    exact hdisj hmem (List.mem_map_of_mem JobResult.name hx)

/-- C5 witness: in a concrete two-job batch where job "A" fails mid-stream,
the batch aborts, "B" is recorded skipped, and "B" is never executed. -/
theorem run_jobs_failfast_witness :
    ∃ pre r post,
      (execJobsFF noQueries [("a", ⟨["c"], [["1"]]⟩), ("b", ⟨["c"], [["2"]]⟩)]
        (fun n => if n = "A" then some 0 else none) []
        [⟨"A", JobSource.table "a", "a2", [], OnConflict.replace⟩,
         ⟨"B", JobSource.table "b", "b2", ["A"], OnConflict.replace⟩]).2.1 =
        pre ++ r :: post ∧
      r.status = JobStatus.failed ∧
      run_jobs noQueries
        [⟨"A", JobSource.table "a", "a2", [], OnConflict.replace⟩,
         ⟨"B", JobSource.table "b", "b2", ["A"], OnConflict.replace⟩]
        [("a", ⟨["c"], [["1"]]⟩), ("b", ⟨["c"], [["2"]]⟩)] []
        (fun n => if n = "A" then some 0 else none) =
        ⟨Except.ok ⟨pre ++ r :: post, BatchStatus.aborted⟩,
         (execJobsFF noQueries [("a", ⟨["c"], [["1"]]⟩), ("b", ⟨["c"], [["2"]]⟩)]
           (fun n => if n = "A" then some 0 else none) []
           [⟨"A", JobSource.table "a", "a2", [], OnConflict.replace⟩,
            ⟨"B", JobSource.table "b", "b2", ["A"], OnConflict.replace⟩]).1, 2,
         (pre ++ [r]).map JobResult.name⟩ ∧
      (pre ++ r :: post).map JobResult.name =
        ([⟨"A", JobSource.table "a", "a2", [], OnConflict.replace⟩,
          ⟨"B", JobSource.table "b", "b2", ["A"], OnConflict.replace⟩] : Jobs).map Job.name ∧
      (∀ x ∈ post, x.status = JobStatus.skipped) ∧
      (∀ x ∈ post, x.name ∉ (pre ++ [r]).map JobResult.name) :=
  run_jobs_failfast_skips_after_failure noQueries
    [⟨"A", JobSource.table "a", "a2", [], OnConflict.replace⟩,
     ⟨"B", JobSource.table "b", "b2", ["A"], OnConflict.replace⟩]
    [("a", ⟨["c"], [["1"]]⟩), ("b", ⟨["c"], [["2"]]⟩)] []
    (fun n => if n = "A" then some 0 else none)
    [⟨"A", JobSource.table "a", "a2", [], OnConflict.replace⟩,
     ⟨"B", JobSource.table "b", "b2", ["A"], OnConflict.replace⟩]
    rfl (by decide) (by decide)

/-- Embedded from `src/__init__.py`: the names imported from the `pg_xmat`
engine module into the package namespace. -/
def pgXmatImports : List String := ["run_job", "run_jobs"]

/-- Embedded from `src/__init__.py`: the names imported from the `schemas`
module into the package namespace. -/
def schemasImports : List String := ["Job", "Jobs", "Database", "Query"]

/-- Embedded from `src/__init__.py`: the package's declared public
interface, the `__all__` list, in source order. -/
def dunderAll : List String :=
  ["run_job", "run_jobs", "Job", "Jobs", "Database", "Query"]

/-- C6: The package's public programmatic interface exposes exactly the
entry points `run_job` and `run_jobs` together with the schema-model types
`Job`, `Jobs`, `Database`, and `Query`, and nothing else: `__all__` is
duplicate-free, is the two engine entry points followed by the four schema
types, and a name is public exactly when it is one of those six. -/
theorem dunderAll_exact :
    dunderAll.Nodup ∧ dunderAll = pgXmatImports ++ schemasImports ∧
    ∀ s, s ∈ dunderAll ↔
      (s = "run_job" ∨ s = "run_jobs" ∨ s = "Job" ∨ s = "Jobs" ∨
       s = "Database" ∨ s = "Query") := by
  refine ⟨by decide, rfl, ?_⟩
  intro s
  simp [dunderAll]

/-- The state of the PostgreSQL server the test harness talks to: which
databases exist, by name, and their contents. -/
abbrev ServerState := List (String × DB)

/-- The source test database name (`tests/test_config.py` is not in the
tree; only the name's identity and distinctness from the target name
matter). -/
def SOURCE_DB_NAME : String := "pg_xmat_test_source"

/-- The target test database name (`tests/test_config.py` is not in the
tree; only the name's identity and distinctness from the source name
matter). -/
def TARGET_DB_NAME : String := "pg_xmat_test_target"

/-- An error surfaced by the database driver (a `psycopg2.Error`). -/
structure PgError where
  msg : String
deriving DecidableEq, Repr

/-- The SQL statements the test harness issues. -/
inductive SqlCmd
  | dropDbIfExistsForce (name : String)
  | createDb (name : String)
deriving DecidableEq, Repr

/-- Render a command to its SQL text, as the f-strings in
`tests/__init__.py` do. -/
def SqlCmd.sql : SqlCmd → String
  | SqlCmd.dropDbIfExistsForce n => "DROP DATABASE IF EXISTS " ++ n ++ " WITH (FORCE);"
  | SqlCmd.createDb n => "CREATE DATABASE " ++ n ++ ";"

/-- Remove a database from the server state; no effect when it is absent. -/
def dropDb (st : ServerState) (n : String) : ServerState :=
  st.filter (fun p => p.1 != n)

/-- Execute one statement: `DROP DATABASE IF EXISTS .. WITH (FORCE)` always
succeeds; `CREATE DATABASE` fails when the database already exists and
otherwise adds it, empty. -/
def execCmd (st : ServerState) (c : SqlCmd) : Except PgError ServerState :=
  match c with
  | SqlCmd.dropDbIfExistsForce n => Except.ok (dropDb st n)
  | SqlCmd.createDb n =>
    match st.lookup n with
    | some _ => Except.error ⟨"database " ++ n ++ " already exists"⟩
    | none => Except.ok (st ++ [(n, [])])

/-- Execute statements in order, stopping at the first error. -/
def execCmds (st : ServerState) : List SqlCmd → Except PgError ServerState
  | [] => Except.ok st
  | c :: cs =>
    match execCmd st c with
    | Except.error e => Except.error e
    | Except.ok st2 => execCmds st2 cs

/-- Embedded from `tests/__init__.py`: the statements `_setUpDatabases`
executes, in source order — drop both databases with force, then create
both. -/
def setUpCmds : List SqlCmd :=
  [SqlCmd.dropDbIfExistsForce SOURCE_DB_NAME,
   SqlCmd.dropDbIfExistsForce TARGET_DB_NAME,
   SqlCmd.createDb SOURCE_DB_NAME,
   SqlCmd.createDb TARGET_DB_NAME]

/-- Embedded from `tests/__init__.py`: the statements `_tearDownDatabases`
executes — drop both databases with force. -/
def tearDownCmds : List SqlCmd :=
  [SqlCmd.dropDbIfExistsForce SOURCE_DB_NAME,
   SqlCmd.dropDbIfExistsForce TARGET_DB_NAME]

/-- The server-state effect of `_setUpDatabases`. -/
def setUpServerEffect (st : ServerState) : Except PgError ServerState :=
  execCmds st setUpCmds

/-- The server-state effect of a fault-free `_tearDownDatabases`. -/
def tearDownServerEffect (st : ServerState) : Except PgError ServerState :=
  execCmds st tearDownCmds

/-- Looking up a name right after dropping it finds nothing. -/
theorem lookup_dropDb_self (st : ServerState) (n : String) :
    (dropDb st n).lookup n = none := by
  unfold dropDb
  induction st with
  | nil => rfl
  | cons p ps ih =>
    obtain ⟨a, b⟩ := p
    by_cases h : a = n
    · subst h; simpa using ih
    · have hne : (n == a) = false := beq_eq_false_iff_ne.mpr (Ne.symm h)
      simp [List.filter_cons, h, List.lookup_cons, hne, ih]

/-- Dropping one database does not change the lookup of another. -/
theorem lookup_dropDb_other (st : ServerState) (n m : String) (h : m ≠ n) :
    (dropDb st n).lookup m = st.lookup m := by
  unfold dropDb
  induction st with
  | nil => rfl
  | cons p ps ih =>
    obtain ⟨a, b⟩ := p
    by_cases hm : a = m
    · subst hm
      have hkeep : (a != n) = true := by simpa using h
      simp [List.filter_cons, hkeep, List.lookup_cons]
    · have hne : (m == a) = false := beq_eq_false_iff_ne.mpr (Ne.symm hm)
      by_cases hn : a = n
      · subst hn
        simp [List.filter_cons, List.lookup_cons, hne, ih]
      · have hkeep : (a != n) = true := by simpa using hn
        simp [List.filter_cons, hkeep, List.lookup_cons, hne, ih]

/-- A name absent from a prefix is looked up in the suffix. -/
theorem lookup_append_of_none (l1 l2 : ServerState) (k : String)
    (h : l1.lookup k = none) : (l1 ++ l2).lookup k = l2.lookup k := by
  induction l1 with
  | nil => rfl
  | cons p ps ih =>
    obtain ⟨a, b⟩ := p
    by_cases hka : k = a
    · subst hka; simp [List.lookup_cons] at h
    · have hne : (k == a) = false := beq_eq_false_iff_ne.mpr hka
      simp only [List.cons_append, List.lookup_cons, hne, cond_false] at h ⊢
      exact ih h

/-- Dropping preserves absence. -/
theorem lookup_dropDb_of_none (st : ServerState) (n k : String)
    (h : st.lookup k = none) : (dropDb st n).lookup k = none := by
  by_cases hk : k = n
  · subst hk; exact lookup_dropDb_self st k
  · rw [lookup_dropDb_other st n k hk]; exact h

/-- Dropping distributes over server-state concatenation. -/
theorem dropDb_append (l1 l2 : ServerState) (n : String) :
    dropDb (l1 ++ l2) n = dropDb l1 n ++ dropDb l2 n := by
  unfold dropDb
  simp [List.filter_append]

/-- Drops of two databases commute. -/
theorem dropDb_dropDb_comm (st : ServerState) (a b : String) :
    dropDb (dropDb st a) b = dropDb (dropDb st b) a := by
  unfold dropDb
  rw [List.filter_filter, List.filter_filter]
  congr 1
  funext p
  exact Bool.and_comm _ _

/-- Dropping the same database twice is the same as dropping it once. -/
theorem dropDb_dropDb_self (st : ServerState) (a : String) :
    dropDb (dropDb st a) a = dropDb st a := by
  unfold dropDb
  rw [List.filter_filter]
  congr 1
  funext p
  exact Bool.and_self _

/-- One successful statement advances the statement runner. -/
theorem execCmds_ok_step (st st2 : ServerState) (c : SqlCmd) (cs : List SqlCmd)
    (h : execCmd st c = Except.ok st2) :
    execCmds st (c :: cs) = execCmds st2 cs := by
  conv_lhs => unfold execCmds
  rw [h]

/-- Creating a database that is absent succeeds and appends it empty. -/
theorem execCmd_create_absent (st : ServerState) (n : String)
    (h : st.lookup n = none) :
    execCmd st (SqlCmd.createDb n) = Except.ok (st ++ [(n, [])]) := by
  show (match st.lookup n with
    | some _ => (Except.error (PgError.mk ("database " ++ n ++ " already exists")) :
        Except PgError ServerState)
    | none => Except.ok (st ++ [(n, [])])) = Except.ok (st ++ [(n, [])])
  rw [h]

/-- The full effect of `_setUpDatabases` on any prior server state: both
databases are dropped if present, then recreated empty at the end of the
state. -/
theorem setUpServerEffect_eq (st : ServerState) :
    setUpServerEffect st = Except.ok
      (dropDb (dropDb st SOURCE_DB_NAME) TARGET_DB_NAME ++
        [(SOURCE_DB_NAME, []), (TARGET_DB_NAME, [])]) := by
  have h1 : (dropDb (dropDb st SOURCE_DB_NAME) TARGET_DB_NAME).lookup SOURCE_DB_NAME
      = none := by
    rw [lookup_dropDb_other _ _ _ (by decide)]
    exact lookup_dropDb_self st SOURCE_DB_NAME
  have h2 : ((dropDb (dropDb st SOURCE_DB_NAME) TARGET_DB_NAME) ++
      [(SOURCE_DB_NAME, ([] : DB))]).lookup TARGET_DB_NAME = none := by
    rw [lookup_append_of_none _ _ _ (lookup_dropDb_self _ _)]
    rfl
  unfold setUpServerEffect setUpCmds
  rw [execCmds_ok_step st (dropDb st SOURCE_DB_NAME)
    (SqlCmd.dropDbIfExistsForce SOURCE_DB_NAME) _ rfl]
  rw [execCmds_ok_step (dropDb st SOURCE_DB_NAME)
    (dropDb (dropDb st SOURCE_DB_NAME) TARGET_DB_NAME)
    (SqlCmd.dropDbIfExistsForce TARGET_DB_NAME) _ rfl]
  rw [execCmds_ok_step _ _ _ _ (execCmd_create_absent _ _ h1)]
  rw [execCmds_ok_step _ _ _ _ (execCmd_create_absent _ _ h2)]
  rw [List.append_assoc]
  rfl

/-- C8: `_setUpDatabases` issues `DROP DATABASE IF EXISTS .. WITH (FORCE)`
for both the source and target database names before creating them, so for
every prior state of the server the post-state holds the two databases
freshly created and empty, and running setup twice in a row is equivalent
to running it once. -/
theorem setUp_dropFirst_idempotent (st : ServerState) :
    setUpCmds.map SqlCmd.sql =
      ["DROP DATABASE IF EXISTS " ++ SOURCE_DB_NAME ++ " WITH (FORCE);",
       "DROP DATABASE IF EXISTS " ++ TARGET_DB_NAME ++ " WITH (FORCE);",
       "CREATE DATABASE " ++ SOURCE_DB_NAME ++ ";",
       "CREATE DATABASE " ++ TARGET_DB_NAME ++ ";"] ∧
    ∃ st2, setUpServerEffect st = Except.ok st2 ∧
      st2.lookup SOURCE_DB_NAME = some [] ∧
      st2.lookup TARGET_DB_NAME = some [] ∧
      setUpServerEffect st2 = Except.ok st2 := by
  have hS : (dropDb (dropDb st SOURCE_DB_NAME) TARGET_DB_NAME).lookup SOURCE_DB_NAME
      = none := by
    rw [lookup_dropDb_other _ _ _ (by decide)]
    exact lookup_dropDb_self st SOURCE_DB_NAME
  have hT : (dropDb (dropDb st SOURCE_DB_NAME) TARGET_DB_NAME).lookup TARGET_DB_NAME
      = none := lookup_dropDb_self _ _
  refine ⟨rfl, dropDb (dropDb st SOURCE_DB_NAME) TARGET_DB_NAME ++
    [(SOURCE_DB_NAME, []), (TARGET_DB_NAME, [])], setUpServerEffect_eq st, ?_, ?_, ?_⟩
  · rw [lookup_append_of_none _ _ _ hS]
    rfl
  · rw [lookup_append_of_none _ _ _ hT]
    rfl
  · have key : dropDb (dropDb (dropDb (dropDb st SOURCE_DB_NAME) TARGET_DB_NAME ++
        [(SOURCE_DB_NAME, []), (TARGET_DB_NAME, [])]) SOURCE_DB_NAME) TARGET_DB_NAME =
        dropDb (dropDb st SOURCE_DB_NAME) TARGET_DB_NAME := by
      rw [dropDb_append]
      rw [show dropDb [(SOURCE_DB_NAME, ([] : DB)), (TARGET_DB_NAME, ([] : DB))]
        SOURCE_DB_NAME = [(TARGET_DB_NAME, ([] : DB))] from rfl]
      rw [dropDb_append]
      rw [show dropDb [(TARGET_DB_NAME, ([] : DB))] TARGET_DB_NAME = [] from rfl]
      rw [List.append_nil]
      rw [dropDb_dropDb_comm (dropDb st SOURCE_DB_NAME) TARGET_DB_NAME SOURCE_DB_NAME]
      rw [dropDb_dropDb_self st SOURCE_DB_NAME]
      rw [dropDb_dropDb_self (dropDb st SOURCE_DB_NAME) TARGET_DB_NAME]
    rw [setUpServerEffect_eq, key]

/-- A Python exception in the harness model: a database-driver error
(`psycopg2.Error`) or any other exception kind. -/
inductive PyExc
  | pgError (msg : String)
  | otherError (msg : String)
deriving DecidableEq, Repr

/-- The points at which a database fault can strike `_tearDownDatabases`:
while connecting, or during either DROP statement. -/
inductive TearDownFault
  | connectFault
  | dropSourceFault
  | dropTargetFault
deriving DecidableEq, Repr

/-- Embedded from `tests/__init__.py`: the body of `_tearDownDatabases`
inside the try block — connect, then drop the source and target databases.
Every fault the driver raises there is a `psycopg2.Error`; the result is the
server state as completed so far plus the pending exception, if any. -/
def tearDownBody (st : ServerState) (fault : Option TearDownFault) :
    ServerState × Option PyExc :=
  match fault with
  | some TearDownFault.connectFault => (st, some (PyExc.pgError "could not connect"))
  | some TearDownFault.dropSourceFault => (st, some (PyExc.pgError "drop source failed"))
  | some TearDownFault.dropTargetFault =>
    (dropDb st SOURCE_DB_NAME, some (PyExc.pgError "drop target failed"))
  | none => (dropDb (dropDb st SOURCE_DB_NAME) TARGET_DB_NAME, none)

/-- The except clause of `_tearDownDatabases`: a pending `psycopg2.Error` is
caught (and logged), turning the outcome into a normal return; any other
exception would propagate. -/
def catchPgExc (out : ServerState × Option PyExc) : ServerState × Option PyExc :=
  match out with
  | (st, some (PyExc.pgError _)) => (st, none)
  | other => other

/-- Embedded from `tests/__init__.py`: `_tearDownDatabases` — the body
wrapped in try/except `psycopg2.Error`. -/
def tearDownFn (st : ServerState) (fault : Option TearDownFault) :
    ServerState × Option PyExc :=
  catchPgExc (tearDownBody st fault)

/-- C10: For every execution of `_tearDownDatabases`, any `psycopg2.Error`
raised while connecting or dropping the databases is caught inside the
function, which then returns normally — no pending exception ever escapes to
the interpreter's exit machinery. -/
theorem tearDownFn_never_raises (st : ServerState) (fault : Option TearDownFault) :
    (tearDownFn st fault).2 = none := by
  cases fault with
  | none => rfl
  | some f => cases f <;> rfl

/-- The state of the test process: the database server it talks to and the
names of the callbacks registered with atexit, most recently registered
first (atexit runs callbacks in last-in-first-out order). -/
structure TestProcessState where
  server : ServerState
  registry : List String
deriving Repr

/-- The atexit registry entry for the harness teardown. -/
def TEARDOWN_CALLBACK : String := "_tearDownDatabases"

/-- Run one registered atexit callback: the harness teardown runs
`_tearDownDatabases` (fault-free at exit in this model); unknown callbacks
leave the server alone. -/
def runAtexitCallback (nm : String) (st : ServerState) : ServerState :=
  if nm = TEARDOWN_CALLBACK then (tearDownFn st none).1 else st

/-- Interpreter exit: run every registered callback, most recent first. -/
def processExit (p : TestProcessState) : ServerState :=
  p.registry.foldl (fun s nm => runAtexitCallback nm s) p.server

/-- Embedded from `tests/__init__.py`: importing the tests package runs
`_setUpDatabases` at module top level, which executes the setup statements
and then — only after they all completed — registers `_tearDownDatabases`
with atexit. -/
def importTestsPackage (p : TestProcessState) : Except PgError TestProcessState :=
  match setUpServerEffect p.server with
  | Except.error e => Except.error e
  | Except.ok st2 => Except.ok ⟨st2, TEARDOWN_CALLBACK :: p.registry⟩

/-- Once a database is absent, no atexit callback of this harness brings it
back, so it stays absent through process exit. -/
theorem foldl_callbacks_preserve_absent (names : List String) (st : ServerState)
    (k : String) (h : st.lookup k = none) :
    (names.foldl (fun s nm => runAtexitCallback nm s) st).lookup k = none := by
  induction names generalizing st with
  | nil => exact h
  | cons nm rest ih =>
    apply ih
    show (if nm = TEARDOWN_CALLBACK then (tearDownFn st none).1 else st).lookup k = none
    by_cases hnm : nm = TEARDOWN_CALLBACK
    · rw [if_pos hnm]
      show (dropDb (dropDb st SOURCE_DB_NAME) TARGET_DB_NAME).lookup k = none
      exact lookup_dropDb_of_none _ _ _ (lookup_dropDb_of_none _ _ _ h)
    · rw [if_neg hnm]
      exact h

/-- C7: The test harness provisions both ephemeral databases before the test
run and tears both down again: a successful import-time setup leaves both
databases present on the server and the teardown registered with atexit, and
after process exit (which runs the registered teardown) both databases are
gone. -/
theorem harness_setup_and_teardown (p p2 : TestProcessState)
    (h : importTestsPackage p = Except.ok p2) :
    (p2.server.lookup SOURCE_DB_NAME).isSome ∧
    (p2.server.lookup TARGET_DB_NAME).isSome ∧
    TEARDOWN_CALLBACK ∈ p2.registry ∧
    (processExit p2).lookup SOURCE_DB_NAME = none ∧
    (processExit p2).lookup TARGET_DB_NAME = none := by
  obtain ⟨_, st2, hok, hlS, hlT, _⟩ := setUp_dropFirst_idempotent p.server
  unfold importTestsPackage at h
  rw [hok] at h
  have h2 : Except.ok (⟨st2, TEARDOWN_CALLBACK :: p.registry⟩ : TestProcessState) =
      Except.ok p2 := h
  injection h2 with h3
  subst h3
  refine ⟨by rw [hlS]; rfl, by rw [hlT]; rfl, List.mem_cons_self _ _, ?_, ?_⟩
  · unfold processExit
    show ((TEARDOWN_CALLBACK :: p.registry).foldl
      (fun s nm => runAtexitCallback nm s) st2).lookup SOURCE_DB_NAME = none
    rw [List.foldl_cons]
    apply foldl_callbacks_preserve_absent
    show (dropDb (dropDb st2 SOURCE_DB_NAME) TARGET_DB_NAME).lookup SOURCE_DB_NAME = none
    rw [lookup_dropDb_other _ _ _ (by decide)]
    exact lookup_dropDb_self st2 SOURCE_DB_NAME
  · unfold processExit
    show ((TEARDOWN_CALLBACK :: p.registry).foldl
      (fun s nm => runAtexitCallback nm s) st2).lookup TARGET_DB_NAME = none
    rw [List.foldl_cons]
    apply foldl_callbacks_preserve_absent
    exact lookup_dropDb_self _ _

/-- C7 witness: importing on an empty server yields both databases, the
registered teardown, and an empty pair of lookups after process exit. -/
theorem harness_setup_and_teardown_witness :
    (((⟨[(SOURCE_DB_NAME, []), (TARGET_DB_NAME, [])], [TEARDOWN_CALLBACK]⟩ :
        TestProcessState).server.lookup SOURCE_DB_NAME).isSome) ∧
    (((⟨[(SOURCE_DB_NAME, []), (TARGET_DB_NAME, [])], [TEARDOWN_CALLBACK]⟩ :
        TestProcessState).server.lookup TARGET_DB_NAME).isSome) ∧
    TEARDOWN_CALLBACK ∈ (⟨[(SOURCE_DB_NAME, []), (TARGET_DB_NAME, [])],
        [TEARDOWN_CALLBACK]⟩ : TestProcessState).registry ∧
    (processExit ⟨[(SOURCE_DB_NAME, []), (TARGET_DB_NAME, [])],
        [TEARDOWN_CALLBACK]⟩).lookup SOURCE_DB_NAME = none ∧
    (processExit ⟨[(SOURCE_DB_NAME, []), (TARGET_DB_NAME, [])],
        [TEARDOWN_CALLBACK]⟩).lookup TARGET_DB_NAME = none :=
  harness_setup_and_teardown ⟨[], []⟩
    ⟨[(SOURCE_DB_NAME, []), (TARGET_DB_NAME, [])], [TEARDOWN_CALLBACK]⟩ rfl

/-- One observable step of `_setUpDatabases`, in source order. -/
inductive SetupStep
  | connectStep
  | dropSourceStep
  | dropTargetStep
  | createSourceStep
  | createTargetStep
  | closeStep
  | registerTeardownStep
deriving DecidableEq, Repr

/-- Embedded from `tests/__init__.py`: the steps of `_setUpDatabases` in
source order — connect, the two DROPs, the two CREATEs, close the
connection, and, last of all, register the teardown with atexit. -/
def setUpSteps : List SetupStep :=
  [SetupStep.connectStep, SetupStep.dropSourceStep, SetupStep.dropTargetStep,
   SetupStep.createSourceStep, SetupStep.createTargetStep, SetupStep.closeStep,
   SetupStep.registerTeardownStep]

/-- The steps actually executed when the function raises after `n` completed
steps (`none` means no exception: every step runs). -/
def executedSetupSteps (failAfter : Option Nat) : List SetupStep :=
  match failAfter with
  | none => setUpSteps
  | some n => setUpSteps.take n

/-- One top-level statement of the tests package module. -/
inductive TopLevelStmt
  | importStmt (moduleName : String)
  | defStmt (functionName : String)
  | callSetUpDatabases
deriving DecidableEq, Repr

/-- Embedded from `tests/__init__.py`: the module's top-level statements in
source order; the final statement calls `_setUpDatabases()`, so setup runs
as a side effect of importing the tests package. -/
def testsModuleBody : List TopLevelStmt :=
  [TopLevelStmt.importStmt "atexit",
   TopLevelStmt.importStmt "psycopg2",
   TopLevelStmt.importStmt "psycopg2.extensions",
   TopLevelStmt.importStmt "test_config",
   TopLevelStmt.defStmt "_setUpDatabases",
   TopLevelStmt.defStmt "_tearDownDatabases",
   TopLevelStmt.callSetUpDatabases]

/-- C9: The teardown is registered with atexit only after both
`CREATE DATABASE` statements have completed — in every (possibly truncated)
execution of `_setUpDatabases`, if the register step ran then both create
steps ran; if the function raises at any earlier point (at most the six
steps before registration completed) the teardown is never registered; and
the module body calls `_setUpDatabases()` at import time. -/
theorem register_after_creates_and_import_runs_setup :
    (∀ f, SetupStep.registerTeardownStep ∈ executedSetupSteps f →
      SetupStep.createSourceStep ∈ executedSetupSteps f ∧
      SetupStep.createTargetStep ∈ executedSetupSteps f) ∧
    (∀ n, n ≤ 6 → SetupStep.registerTeardownStep ∉ executedSetupSteps (some n)) ∧
    TopLevelStmt.callSetUpDatabases ∈ testsModuleBody := by
  have hnotin : ∀ n, n ≤ 6 →
      SetupStep.registerTeardownStep ∉ executedSetupSteps (some n) := by
    intro n hn
    interval_cases n <;> decide
  refine ⟨?_, hnotin, by decide⟩
  intro f hf
  cases f with
  | none => exact ⟨by decide, by decide⟩
  | some n =>
    by_cases hn : n ≤ 6
    · exact absurd hf (hnotin n hn)
    · have hlen : setUpSteps.length ≤ n := by
        simp [setUpSteps]
        omega
      have : executedSetupSteps (some n) = setUpSteps := by
        show setUpSteps.take n = setUpSteps
        exact List.take_of_length_le hlen
      rw [this]
      exact ⟨by decide, by decide⟩

/-- C9 witness: in the complete execution the register step ran and both
create steps ran before it; an execution cut after four steps registered
nothing. -/
theorem register_after_creates_witness :
    SetupStep.createSourceStep ∈ executedSetupSteps none ∧
    SetupStep.createTargetStep ∈ executedSetupSteps none ∧
    SetupStep.registerTeardownStep ∉ executedSetupSteps (some 4) :=
  ⟨(register_after_creates_and_import_runs_setup.1 none (by decide)).1,
   (register_after_creates_and_import_runs_setup.1 none (by decide)).2,
   register_after_creates_and_import_runs_setup.2.1 4 (by decide)⟩

end PgXcopy
